import Mathlib

/-!
Verification of the distributed batch-job execution engine of GGCE
(`._submit.py`): the round-robin partitioner (`RankTools.chunk_jobs`),
the checkpoint buffer (`Buffer`), the resume engine
(`Executor.find_remaining_jobs`), the compute phase
(`Executor.calculate`), the result writer (`Executor.save_final`) and
the empty-configuration abort in the orchestration driver.

Floats are idealised as exact rationals; `np.pi` is embedded as the
exact rational value of the IEEE-754 double it denotes.  Wall-clock
times returned by the compute phase are threaded through as an oracle
parameter: the only times the code produces deterministically are the
literal `0.0` returns of its two short-circuit branches.
-/

namespace GGCE

/-- Python slicing `l[c::s]` for step `s`, written as a structural
recursion: `stridedAux s l c` skips `c` elements, keeps the next one,
and then repeats with gap `s - 1`.  `RankTools.chunk_jobs` builds each
worker's chunk as `jobs[ii::SIZE]`. -/
def stridedAux (s : ℕ) : List α → ℕ → List α
  | [], _ => []
  | x :: xs, 0 => x :: stridedAux s xs (s - 1)
  | _ :: xs, c + 1 => stridedAux s xs c

/-- Embedding of `RankTools.chunk_jobs` (src/._submit.py lines 69-73):
`return [jobs[ii::self.SIZE] for ii in range(self.SIZE)]`. -/
def chunk_jobs (size : ℕ) (jobs : List α) : List (List α) :=
  (List.range size).map (fun i => stridedAux size jobs i)

/-- Embedding of the `Buffer` object (src/._submit.py lines 76-95).
The shared STATE directory is modelled by the `files` field: each
`flush` that fires appends the queue as one new immutable file. -/
structure BufferState (α : Type) where
  nbuff : ℕ
  counter : ℕ
  queue : List α
  files : List (List α)
deriving DecidableEq

namespace BufferState

/-- Embedding of `Buffer.flush` (lines 84-89): writes the queue as a
fresh uniquely-named file only when the counter is positive, then
clears the counter and the queue. -/
def flush (b : BufferState α) : BufferState α :=
  if 0 < b.counter then
    { b with files := b.files ++ [b.queue], counter := 0, queue := [] }
  else b

/-- Embedding of `Buffer.__call__` (lines 91-95): append the value,
bump the counter, and flush once the counter reaches `nbuff`. -/
def push (b : BufferState α) (v : α) : BufferState α :=
  let b2 : BufferState α :=
    { b with queue := b.queue ++ [v], counter := b.counter + 1 }
  if b2.nbuff ≤ b2.counter then b2.flush else b2

/-- Every record held by the buffer object: flushed files first, then
the pending queue. -/
def contents (b : BufferState α) : List α :=
  b.files.flatten ++ b.queue

/-- The counter always mirrors the queue length; this holds for the
freshly constructed buffer and is preserved by `push` and `flush`. -/
def wf (b : BufferState α) : Prop :=
  b.counter = b.queue.length

end BufferState

/-- Pushing a sequence of records through a fresh buffer of batch size
`nbuff` and then performing the final manual flush, exactly as
`Executor.calculate` does (lines 241, 298, 301). -/
def run_buffer (nbuff : ℕ) (recs : List α) : BufferState α :=
  (recs.foldl BufferState.push ⟨nbuff, 0, [], []⟩).flush

/-- One grid point: a `(k, w)` pair, `k` in units of pi. -/
abbrev Job := ℚ × ℚ

/-- One checkpoint record `[_k, _w, G.real, G.imag, tcomp,
largest_mat_dim]` as built on line 291. -/
structure CheckRecord where
  k : ℚ
  w : ℚ
  re : ℚ
  im : ℚ
  tcomp : ℚ
  dim : ℚ
deriving DecidableEq

/-- Modelled from the spec: `utils.listdir_fullpath` lives in
`ggce.utils`, which is not part of the sources; per spec section 4.2
the resume engine "must treat a missing directory as zero completed
work, never as an error", so listing an absent STATE directory yields
no checkpoint files.  The directory is `none` when absent, otherwise
`some` the list of checkpoint files it holds. -/
def listdir_fullpath (stateDir : Option (List (List CheckRecord))) :
    List (List CheckRecord) :=
  stateDir.getD []

/-- The `(k, w)` key of a checkpoint record: `tuple(ll[:2])` on
line 132. -/
def record_key (r : CheckRecord) : Job :=
  (r.k, r.w)

/-- Embedding of `Executor.find_remaining_jobs` (lines 121-134):
collect the `(k, w)` keys of every record of every checkpoint file and
return `list(set(jobs) - set(completed_jobs))`.  The Python `set`
conversion deduplicates and forgets order; its unspecified iteration
order is represented by the canonical duplicate-free list below. -/
def find_remaining_jobs (jobs : List Job)
    (stateDir : Option (List (List CheckRecord))) : List Job :=
  let checkpoints := listdir_fullpath stateDir
  let completed_jobs := checkpoints.flatten.map record_key
  jobs.dedup.filter (fun j => decide (j ∉ completed_jobs))

/-- Embedding of `itertools.product(k_grid, w_grid)` on line 140:
`k` outer loop, `w` inner loop. -/
def list_product (k_grid w_grid : List ℚ) : List Job :=
  k_grid.flatMap (fun a => w_grid.map (fun b => (a, b)))

/-- Embedding of `Executor.prep_jobs` (lines 136-142): the full grid
product is chunked over the communicator and this rank keeps chunk
number `rank`. -/
def prep_jobs (k_grid w_grid : List ℚ) (size rank : ℕ) : List Job :=
  (chunk_jobs size (list_product k_grid w_grid)).getD rank []

/-- Embedding of the batch-size policy of `Executor.calculate`
(lines 236-239): a positive configured value is used as is, otherwise
`int(max(len(self.jobs) // 100, 1))` where `self.jobs` has already
been shrunk by `find_remaining_jobs`. -/
def effective_nbuff (cfg : ℤ) (numRemaining : ℕ) : ℕ :=
  if 0 < cfg then cfg.toNat else max (numRemaining / 100) 1

/-- Exact rational value of the IEEE-754 double `np.pi`
(884279719003555 / 2 ^ 48). -/
def PI : ℚ := 884279719003555 / 281474976710656

/-- Spectral amplitude `A = -G.imag / np.pi` (line 272). -/
def amplitude (gim : ℚ) : ℚ :=
  -gim / PI

/-- One iteration of the main loop body of `Executor.calculate`
(lines 266-291) up to the buffer push: call
`sy.solve(_k * np.pi, _w, solver)`, derive the amplitude, flag the
negative-spectral-weight error log (line 280), and build the record
`[_k, _w, G.real, G.imag, tcomp, largest_mat_dim]`.  The solver is an
oracle `ℚ → ℚ → (ℚ × ℚ) × ℚ × ℚ` returning `((Re G, Im G), tcomp,
largest_mat_dim)`. -/
def solve_point (solve : ℚ → ℚ → (ℚ × ℚ) × ℚ × ℚ) (j : Job) :
    CheckRecord × Bool :=
  let res := solve (j.1 * PI) j.2
  (⟨j.1, j.2, res.1.1, res.1.2, res.2.1, res.2.2⟩,
    decide (amplitude res.1.2 < 0))

/-- One full iteration of the main loop: push the record into the
buffer (line 298) and count the negative-amplitude error log if it
fired.  The loop never aborts: every job is pushed. -/
def calc_step (solve : ℚ → ℚ → (ℚ × ℚ) × ℚ × ℚ)
    (st : BufferState CheckRecord × ℕ) (j : Job) :
    BufferState CheckRecord × ℕ :=
  let pr := solve_point solve j
  (st.1.push pr.1, st.2 + (if pr.2 then 1 else 0))

/-- Observable outcome of `Executor.calculate`: the returned elapsed
time, the number of grid points handed to the solver, the STATE
directory afterwards, the buffer object at exit (`none` on the
short-circuit paths, where no buffer is ever constructed) and the
number of negative-amplitude error logs. -/
structure CalcResult where
  elapsed : ℚ
  computed : ℕ
  stateDir : Option (List (List CheckRecord))
  buffer : Option (BufferState CheckRecord)
  negLogged : ℕ
deriving DecidableEq

/-- Embedding of `Executor.calculate` (lines 206-304).  The two
short-circuit branches (DONE file exists, line 211; empty assigned
chunk, line 223) return the literal elapsed time `0.0` and touch
nothing.  Otherwise the assigned chunk is shrunk by the resume
engine, the buffer is sized by the batch-size policy, every remaining
job is solved and pushed, and the final manual flush (line 301) runs.
`elapsedTime` is the wall-clock oracle for the full branch. -/
def calculate (doneExists : Bool)
    (stateDir : Option (List (List CheckRecord)))
    (k_grid w_grid : List ℚ) (size rank : ℕ) (nbuffCfg : ℤ)
    (solve : ℚ → ℚ → (ℚ × ℚ) × ℚ × ℚ) (elapsedTime : ℚ) : CalcResult :=
  if doneExists then ⟨0, 0, stateDir, none, 0⟩
  else
    let assigned := prep_jobs k_grid w_grid size rank
    if assigned.length = 0 then ⟨0, 0, stateDir, none, 0⟩
    else
      let jobs := find_remaining_jobs assigned stateDir
      let nb := effective_nbuff nbuffCfg jobs.length
      let st := jobs.foldl (calc_step solve) (⟨nb, 0, [], []⟩, 0)
      let flushed := st.1.flush
      ⟨elapsedTime, jobs.length,
        some (listdir_fullpath stateDir ++ flushed.files),
        some flushed, st.2⟩

/-- Paths of configuration files, as broadcast by the driver. -/
abbrev ConfigPath := String

/-- What a rank does right after the broadcast of the config list. -/
inductive MainAction
  | abort
  | proceed
deriving DecidableEq

/-- Embedding of the empty-configuration check of the driver
(src/._submit.py lines 370-373): when the broadcast list is empty,
every rank calls `COMM.Abort()`, and rank 0 additionally logs the
diagnostic.  Returns the action taken and whether the diagnostic was
logged on this rank. -/
def on_empty_configs (configs : List ConfigPath) (rank : ℕ) :
    MainAction × Bool :=
  if configs = [] then (MainAction.abort, decide (rank = 0))
  else (MainAction.proceed, false)

/-- Embedding of `Executor.save_final` (lines 186-195): on any rank
other than 0 it returns at once without touching the filesystem;
on rank 0 it writes the merged array to the `res.npy` file.  The
`res.npy` slot of the filesystem is modelled as an `Option`. -/
def save_final (rank : ℕ) (arr : α) (resFile : Option α) : Option α :=
  if rank ≠ 0 then resFile else some arr

namespace BufferState

theorem flush_contents (b : BufferState α) : b.flush.contents = b.contents := by
  unfold flush contents
  split <;> simp

theorem flush_nbuff (b : BufferState α) : b.flush.nbuff = b.nbuff := by
  unfold flush
  split <;> simp

theorem flush_wf (b : BufferState α) (h : b.wf) : b.flush.wf := by
  unfold flush wf at *
  split <;> simp [h]

theorem flush_queue_nil (b : BufferState α) (h : b.wf) : b.flush.queue = [] := by
  unfold flush wf at *
  split
  · simp
  · rename_i hc
    simp only [not_lt, Nat.le_zero] at hc
    have hlen : b.queue.length = 0 := by omega
    exact List.length_eq_zero.mp hlen

theorem push_contents (b : BufferState α) (v : α) :
    (b.push v).contents = b.contents ++ [v] := by
  unfold push
  dsimp only
  split
  · rw [flush_contents]
    simp [contents]
  · simp [contents]

theorem push_nbuff (b : BufferState α) (v : α) : (b.push v).nbuff = b.nbuff := by
  unfold push
  dsimp only
  split
  · rw [flush_nbuff]
  · simp

theorem push_wf (b : BufferState α) (v : α) (h : b.wf) : (b.push v).wf := by
  unfold push
  dsimp only
  split
  · apply flush_wf
    unfold wf at *
    simp [h]
  · unfold wf at *
    simp [h]

theorem push_no_empty_file (b : BufferState α) (v : α)
    (h : [] ∉ b.files) : [] ∉ (b.push v).files := by
  unfold push flush
  dsimp only
  split
  · split <;> simp_all
  · simpa using h

theorem flush_no_empty_file (b : BufferState α) (hwf : b.wf)
    (h : [] ∉ b.files) : [] ∉ b.flush.files := by
  unfold flush
  split
  · rename_i hc
    unfold wf at hwf
    have hq : b.queue ≠ [] := by
      intro hnil
      rw [hnil] at hwf
      simp at hwf
      omega
    simp_all [eq_comm]
  · exact h

end BufferState

theorem foldl_push_contents (recs : List α) (b : BufferState α) :
    (recs.foldl BufferState.push b).contents = b.contents ++ recs := by
  induction recs generalizing b with
  | nil => simp
  | cons r rs ih =>
    simp only [List.foldl_cons]
    rw [ih, BufferState.push_contents]
    simp

theorem foldl_push_wf (recs : List α) (b : BufferState α) (h : b.wf) :
    (recs.foldl BufferState.push b).wf := by
  induction recs generalizing b with
  | nil => exact h
  | cons r rs ih =>
    exact ih _ (BufferState.push_wf _ _ h)

theorem foldl_push_nbuff (recs : List α) (b : BufferState α) :
    (recs.foldl BufferState.push b).nbuff = b.nbuff := by
  induction recs generalizing b with
  | nil => rfl
  | cons r rs ih =>
    simp only [List.foldl_cons]
    rw [ih, BufferState.push_nbuff]

theorem foldl_push_no_empty_file (recs : List α) (b : BufferState α)
    (h : [] ∉ b.files) : [] ∉ (recs.foldl BufferState.push b).files := by
  induction recs generalizing b with
  | nil => exact h
  | cons r rs ih =>
    exact ih _ (BufferState.push_no_empty_file _ _ h)

/-- Pushing records through a fresh buffer and flushing at the end
persists exactly the pushed sequence, for any batch size at all. -/
theorem run_buffer_flatten (nbuff : ℕ) (recs : List α) :
    (run_buffer nbuff recs).files.flatten = recs := by
  unfold run_buffer
  have hwf0 : (⟨nbuff, 0, [], []⟩ : BufferState α).wf := rfl
  have hwf := foldl_push_wf recs _ hwf0
  have hq := BufferState.flush_queue_nil _ hwf
  have hc := BufferState.flush_contents (recs.foldl BufferState.push ⟨nbuff, 0, [], []⟩)
  rw [foldl_push_contents] at hc
  unfold BufferState.contents at hc
  rw [hq] at hc
  simpa [BufferState.contents] using hc

theorem stridedAux_getElem (s : ℕ) (hs : 1 ≤ s) :
    ∀ (l : List α) (c t : ℕ), (stridedAux s l c)[t]? = l[c + t * s]? := by
  intro l
  induction l with
  | nil =>
    intro c t
    simp [stridedAux]
  | cons x xs ih =>
    intro c t
    cases c with
    | zero =>
      cases t with
      | zero => simp [stridedAux]
      | succ t =>
        simp only [stridedAux, List.getElem?_cons_succ]
        rw [ih]
        have h1 : 0 + (t + 1) * s = ((s - 1) + t * s) + 1 := by
          rw [Nat.succ_mul]
          omega
        rw [h1, List.getElem?_cons_succ]
    | succ c =>
      simp only [stridedAux]
      rw [ih]
      have h1 : (c + 1) + t * s = (c + t * s) + 1 := by omega
      rw [h1, List.getElem?_cons_succ]

theorem chunk_jobs_length (size : ℕ) (jobs : List α) :
    (chunk_jobs size jobs).length = size := by
  simp [chunk_jobs]

theorem chunk_jobs_getD (size : ℕ) (hs : 1 ≤ size) (jobs : List α)
    (i : ℕ) (hi : i < size) (t : ℕ) :
    ((chunk_jobs size jobs).getD i [])[t]? = jobs[i + t * size]? := by
  have h1 : (chunk_jobs size jobs)[i]? = some (stridedAux size jobs i) := by
    simp [chunk_jobs, List.getElem?_range hi]
  rw [List.getD_eq_getElem?_getD, h1]
  simpa using stridedAux_getElem size hs jobs i t

theorem chunk_jobs_flatten_perm (size : ℕ) (hs : 1 ≤ size) (l : List α) :
    (chunk_jobs size l).flatten.Perm l := by
  induction l with
  | nil =>
    have h : ∀ i, stridedAux size ([] : List α) i = [] := by
      intro i
      cases i <;> simp [stridedAux]
    simp [chunk_jobs, h]
  | cons x xs ih =>
    obtain ⟨k, rfl⟩ : ∃ k, size = k + 1 := ⟨size - 1, by omega⟩
    have h1 : chunk_jobs (k + 1) (x :: xs)
        = (x :: stridedAux (k + 1) xs k)
          :: (List.range k).map (fun i => stridedAux (k + 1) xs i) := by
      unfold chunk_jobs
      rw [List.range_succ_eq_map]
      simp [stridedAux, Function.comp, List.map_map]
    have h2 : chunk_jobs (k + 1) xs
        = (List.range k).map (fun i => stridedAux (k + 1) xs i)
          ++ [stridedAux (k + 1) xs k] := by
      unfold chunk_jobs
      rw [List.range_succ]
      simp
    rw [h1]
    simp only [List.flatten_cons, List.cons_append]
    refine List.Perm.cons x ?_
    rw [h2] at ih
    simp only [List.flatten_append, List.flatten_cons, List.flatten_nil,
      List.append_nil] at ih
    exact (List.perm_append_comm).trans ih

theorem foldl_calc_step_nbuff (solve : ℚ → ℚ → (ℚ × ℚ) × ℚ × ℚ)
    (jobs : List Job) (st : BufferState CheckRecord × ℕ) :
    ((jobs.foldl (calc_step solve) st).1).nbuff = st.1.nbuff := by
  induction jobs generalizing st with
  | nil => rfl
  | cons j js ih =>
    simp only [List.foldl_cons]
    rw [ih]
    simp [calc_step, BufferState.push_nbuff]

/-- C1: for every finite job list and every worker count W ≥ 1,
`chunk_jobs` produces exactly W chunks; position t of chunk i is the
input element at index i + t·W — so worker i receives exactly the
elements whose index is congruent to i mod W, in input order, and the
chunks are disjoint as index sets — and the concatenation of all the
chunks is a permutation of the input, so their union contains every
element of the input exactly once. -/
theorem claim_c1_partition_roundrobin (jobs : List α) (W : ℕ) (hW : 1 ≤ W) :
    (chunk_jobs W jobs).length = W
    ∧ (∀ i, i < W → ∀ t, ((chunk_jobs W jobs).getD i [])[t]? = jobs[i + t * W]?)
    ∧ (chunk_jobs W jobs).flatten.Perm jobs :=
  ⟨chunk_jobs_length W jobs,
   fun i hi t => chunk_jobs_getD W hW jobs i hi t,
   chunk_jobs_flatten_perm W hW jobs⟩

/-- Witness for C1: the partition of [10, 20, 30] over two workers. -/
theorem claim_c1_witness :
    (chunk_jobs 2 [10, 20, 30]).length = 2
    ∧ (chunk_jobs 2 [10, 20, 30]).flatten.Perm [10, 20, 30] :=
  ⟨(claim_c1_partition_roundrobin [10, 20, 30] 2 (by decide)).1,
   (claim_c1_partition_roundrobin [10, 20, 30] 2 (by decide)).2.2⟩

/-- C2: pushing N records through a fresh buffer of batch size B with
1 ≤ B ≤ N and then performing the final manual flush persists exactly
the N pushed records: the concatenation of all checkpoint files equals
the pushed sequence itself (so the total persisted count is N, no
record is lost, and no record occurrence is duplicated across
batches), regardless of B. -/
theorem claim_c2_buffer_flush_invariant (recs : List α) (B : ℕ)
    (h1 : 1 ≤ B) (h2 : B ≤ recs.length) :
    (run_buffer B recs).files.flatten = recs
    ∧ ((run_buffer B recs).files.flatten).length = recs.length := by
  have h := run_buffer_flatten B recs
  exact ⟨h, by rw [h]⟩

/-- Witness for C2: three records, batch size two. -/
theorem claim_c2_witness :
    (run_buffer 2 [(1 : ℚ), 2, 3]).files.flatten = [1, 2, 3] :=
  (claim_c2_buffer_flush_invariant [(1 : ℚ), 2, 3] 2 (by decide) (by decide)).1

/-- C3: the resume engine returns exactly the set difference assigned
minus completed: a job is in the returned remainder iff it is assigned
and no checkpoint record's first two fields equal its (k, w) pair; the
remainder carries no duplicates (set semantics, with no ordering
guarantee). -/
theorem claim_c3_resume_set_difference (jobs : List Job)
    (files : List (List CheckRecord)) :
    (∀ j : Job, j ∈ find_remaining_jobs jobs (some files)
      ↔ (j ∈ jobs ∧ ¬ ∃ r ∈ files.flatten, record_key r = j))
    ∧ (find_remaining_jobs jobs (some files)).Nodup := by
  constructor
  · intro j
    simp only [find_remaining_jobs, listdir_fullpath, Option.getD_some,
      List.mem_filter, List.mem_dedup, decide_eq_true_eq, List.mem_map,
      not_exists, not_and]
  · exact List.Nodup.filter _ (List.nodup_dedup jobs)

/-- C4: with the STATE directory absent the resume engine treats it as
zero completed work: the remainder contains exactly the assigned jobs,
and on a duplicate-free assigned list it is the assigned list itself,
unchanged; the engine is a total function, so no error is ever
raised. -/
theorem claim_c4_missing_directory (jobs : List Job) :
    (∀ j : Job, j ∈ find_remaining_jobs jobs none ↔ j ∈ jobs)
    ∧ (jobs.Nodup → find_remaining_jobs jobs none = jobs) := by
  constructor
  · intro j
    simp [find_remaining_jobs, listdir_fullpath]
  · intro h
    simp [find_remaining_jobs, listdir_fullpath, List.dedup_eq_self.mpr h]

/-- Witness for C4: a two-job list, STATE directory absent. -/
theorem claim_c4_witness :
    find_remaining_jobs [((1 : ℚ), (2 : ℚ)), ((3 : ℚ), (4 : ℚ))] none
      = [((1 : ℚ), (2 : ℚ)), ((3 : ℚ), (4 : ℚ))] :=
  (claim_c4_missing_directory _).2 (by decide)

/-- C5: when the DONE marker exists at entry, `calculate` returns at
once with elapsed time exactly 0, zero grid points computed, no buffer
ever constructed, no negative-amplitude log, and the STATE directory
exactly as it was — untouched, whatever its contents. -/
theorem claim_c5_done_marker_short_circuit
    (sd : Option (List (List CheckRecord))) (kg wg : List ℚ)
    (size rank : ℕ) (cfg : ℤ) (solve : ℚ → ℚ → (ℚ × ℚ) × ℚ × ℚ) (t : ℚ) :
    calculate true sd kg wg size rank cfg solve t = ⟨0, 0, sd, none, 0⟩ :=
  rfl

/-- C6: for a solver response G = a + bi the derived spectral
amplitude is −b/π (with π embedded as the exact rational value of the
double `np.pi`); the loop body flags the error log exactly when the
amplitude is negative, and regardless of the sign it pushes the
unmodified record (k, w, Re G, Im G, tcomp, dim) into the checkpoint
buffer and carries on — `calc_step` is total and always pushes, so a
negative amplitude never aborts the loop. -/
theorem claim_c6_negative_amplitude (solve : ℚ → ℚ → (ℚ × ℚ) × ℚ × ℚ)
    (k w : ℚ) (b : BufferState CheckRecord) (e : ℕ) :
    amplitude (solve (k * PI) w).1.2 = -(solve (k * PI) w).1.2 / PI
    ∧ ((solve_point solve (k, w)).2 = true
        ↔ amplitude (solve (k * PI) w).1.2 < 0)
    ∧ (solve_point solve (k, w)).1
        = ⟨k, w, (solve (k * PI) w).1.1, (solve (k * PI) w).1.2,
            (solve (k * PI) w).2.1, (solve (k * PI) w).2.2⟩
    ∧ (calc_step solve (b, e) (k, w)).1 = b.push (solve_point solve (k, w)).1
    ∧ (calc_step solve (b, e) (k, w)).2
        = e + (if amplitude (solve (k * PI) w).1.2 < 0 then 1 else 0) := by
  refine ⟨rfl, ?_, rfl, rfl, ?_⟩
  · simp [solve_point]
  · simp [calc_step, solve_point]

/-- C7: when the broadcast config list is empty, every rank takes the
whole-group abort action — never the silent proceed — and the
diagnostic is logged exactly on the coordinating rank 0, so no later
collective call can be reached by only part of the group. -/
theorem claim_c7_empty_configs_abort (rank : ℕ) :
    (on_empty_configs [] rank).1 = MainAction.abort
    ∧ ((on_empty_configs [] rank).2 = true ↔ rank = 0) := by
  constructor
  · rfl
  · simp [on_empty_configs]

/-- Concrete 20-point k grid 0, 1, ..., 19. -/
def exK : List ℚ :=
  (List.range 20).map (fun n => (n : ℚ))

/-- Concrete 10-point w grid 0, 1, ..., 9. -/
def exW10 : List ℚ :=
  (List.range 10).map (fun n => (n : ℚ))

/-- Trivial solver oracle used for the concrete runs. -/
def exSolve : ℚ → ℚ → (ℚ × ℚ) × ℚ × ℚ :=
  fun _ _ => ((0, 0), 0, 0)

/-- The 200 jobs assigned to the single worker of a size-1 group on
the 20 x 10 grid. -/
def exAssigned : List Job :=
  prep_jobs exK exW10 1 0

/-- One checkpoint file holding records for the first 150 of the 200
grid points. -/
def exFiles : List (List CheckRecord) :=
  [((list_product exK exW10).take 150).map (fun j => ⟨j.1, j.2, 0, 0, 0, 0⟩)]

/-- Counterexample to C8: with 200 assigned jobs of which 150 are
already checkpointed and a non-positive configured batch size, the
buffer built by `calculate` has batch size 1 = max(50 / 100, 1), sized
from the 50 jobs remaining after the resume-diff — not
max(200 / 100, 1) = 2, the value the claim derives from the total
assigned job count. -/
theorem claim_c8_counterexample :
    exAssigned.length = 200
    ∧ ((calculate false (some exFiles) exK exW10 1 0 (-1) exSolve 0).buffer).map
        BufferState.nbuff = some 1
    ∧ max (exAssigned.length / 100) 1 = 2
    ∧ ((calculate false (some exFiles) exK exW10 1 0 (-1) exSolve 0).buffer).map
        BufferState.nbuff ≠ some (max (exAssigned.length / 100) 1) := by
  set_option maxRecDepth 40000 in decide

/-- C8 as amended: whenever this worker's assigned chunk is nonempty,
the buffer built by `calculate` has batch size
`effective_nbuff cfg remaining` where `remaining` is the number of
jobs left on this worker after the resume-diff — that is, a positive
configured value is used unchanged, and a non-positive one is
auto-sized to max(remaining / 100, 1) from the remaining (not the
assigned) job count. -/
theorem claim_c8_amended (sd : Option (List (List CheckRecord)))
    (kg wg : List ℚ) (size rank : ℕ) (cfg : ℤ)
    (solve : ℚ → ℚ → (ℚ × ℚ) × ℚ × ℚ) (t : ℚ)
    (h : prep_jobs kg wg size rank ≠ []) :
    ((calculate false sd kg wg size rank cfg solve t).buffer).map
        BufferState.nbuff
      = some (effective_nbuff cfg
          (find_remaining_jobs (prep_jobs kg wg size rank) sd).length)
    ∧ (∀ n : ℕ, effective_nbuff cfg n
        = if 0 < cfg then cfg.toNat else max (n / 100) 1) := by
  constructor
  · have hlen : ¬ (prep_jobs kg wg size rank).length = 0 := by
      simpa [List.length_eq_zero] using h
    simp only [calculate, Bool.false_eq_true, if_false, hlen]
    simp only [Option.map_some']
    rw [BufferState.flush_nbuff, foldl_calc_step_nbuff]
  · intro n
    rfl

/-- Witness for the amended C8: one assigned job, configured batch
size 5, used unchanged. -/
theorem claim_c8_witness :
    ((calculate false none [0] [0] 1 0 5 exSolve 0).buffer).map
        BufferState.nbuff
      = some (effective_nbuff 5
          (find_remaining_jobs (prep_jobs [0] [0] 1 0) none).length) :=
  (claim_c8_amended none [0] [0] 1 0 5 exSolve 0 (by decide)).1

/-- C9: flushing a buffer holding zero accumulated records writes no
file and changes nothing at all; flush is idempotent (two consecutive
flushes equal one); and a fresh buffer run to completion — any pushes,
however the automatic flushes fell, followed by the final manual
flush — never creates an empty checkpoint file. -/
theorem claim_c9_flush_idempotent (α : Type) :
    (∀ b : BufferState α, b.counter = 0 → b.flush = b)
    ∧ (∀ b : BufferState α, b.flush.flush = b.flush)
    ∧ (∀ (B : ℕ) (recs : List α), [] ∉ (run_buffer B recs).files) := by
  refine ⟨?_, ?_, ?_⟩
  · intro b h
    unfold BufferState.flush
    rw [if_neg]
    omega
  · intro b
    unfold BufferState.flush
    by_cases h : 0 < b.counter
    · rw [if_pos h]
      simp
    · rw [if_neg h, if_neg h]
  · intro B recs
    unfold run_buffer
    apply BufferState.flush_no_empty_file
    · exact foldl_push_wf _ _ rfl
    · exact foldl_push_no_empty_file _ _ (by simp)

/-- Witness for C9: flushing an empty buffer with one pre-existing
file changes nothing, and a one-record run creates no empty file. -/
theorem claim_c9_witness :
    BufferState.flush ⟨3, 0, [], [[(1 : ℚ)]]⟩ = ⟨3, 0, [], [[(1 : ℚ)]]⟩
    ∧ [] ∉ (run_buffer 1 [(1 : ℚ)]).files :=
  ⟨(claim_c9_flush_idempotent ℚ).1 ⟨3, 0, [], [[(1 : ℚ)]]⟩ rfl,
   (claim_c9_flush_idempotent ℚ).2.2 1 [(1 : ℚ)]⟩

/-- C10: `save_final` on any rank other than 0 returns with the
filesystem unchanged (a silent no-op); on rank 0 it writes the merged
array to the res file — so only the one rank-0 worker ever persists
the merged result. -/
theorem claim_c10_save_final_rank0 (rank : ℕ) (arr : α)
    (resFile : Option α) :
    (rank ≠ 0 → save_final rank arr resFile = resFile)
    ∧ save_final 0 arr resFile = some arr := by
  constructor
  · intro h
    unfold save_final
    rw [if_pos h]
  · rfl

/-- Witness for C10: rank 1 leaves the res slot empty, rank 0 fills
it. -/
theorem claim_c10_witness :
    save_final 1 (5 : ℚ) none = none ∧ save_final 0 (5 : ℚ) none = some 5 :=
  ⟨(claim_c10_save_final_rank0 1 (5 : ℚ) none).1 (by decide),
   (claim_c10_save_final_rank0 0 (5 : ℚ) none).2⟩

end GGCE
